import Mathlib

/-!
Verification development for the vibe-cli command-resolution and
template-execution engine.

The embedded code comes from two source files:
* the Node entry point (`main.ts`, given as `src/unnamed/part_005`):
  `formatCommand`, `executeShellCommand`, `loadCommands`, and the
  resolution flow of `main`;
* the shared utilities (`src/shared/utils.ts`): a second `formatCommand`
  and `parseCommandArgs`.

Strings are modelled as `String` / `List Char`.  The JavaScript string
primitives the source relies on are embedded explicitly:
* `template.match(/\x7b([^\x7d]+)\x7d/g)` is embedded as the scanner
  `matchAux` (leftmost matching, greedy interior, a brace pair with an
  empty interior does not match);
* `String.prototype.replace(searchString, replacement)` is embedded as
  `jsReplace`: it replaces the first occurrence of the search string and
  expands the ECMAScript substitution patterns in the replacement
  (a double dollar collapses to one dollar, dollar-ampersand inserts the
  matched text, dollar-backquote the text before the match,
  dollar-quote the text after the match; with a string search there are
  no capture groups, so dollar-digit sequences stay literal).
-/

namespace VibeCli

/-- The character `\x7b` (opening curly brace). -/
def obrace : Char := Char.ofNat 123

/-- The character `\x7d` (closing curly brace). -/
def cbrace : Char := Char.ofNat 125

/-- The dollar character, special in a JS replacement string. -/
def dollar : Char := '$'

/-- The ampersand character. -/
def amp : Char := '&'

/-- The backquote character (code 96). -/
def bquote : Char := Char.ofNat 96

/-- The single-quote character (code 39). -/
def squote : Char := Char.ofNat 39

/-!
## The placeholder scanner

`matchAux cs st` runs the regex `/\x7b([^\x7d]+)\x7d/g` over `cs` and
returns the list of matched substrings, in order.  The state `st` is
`none` outside a candidate match and `some acc` after an opening brace
whose interior so far is `acc`.  An opening brace immediately followed
by a closing brace does not match (the interior must be nonempty), and
an unterminated opening brace matches nothing.
-/

/-- One pass of the placeholder regex; returns the matched substrings. -/
def matchAux : List Char → Option (List Char) → List (List Char)
  | [], _ => []
  | c :: rest, none =>
    if c = obrace then matchAux rest (some []) else matchAux rest none
  | c :: rest, some acc =>
    if c = cbrace then
      if acc = [] then matchAux rest none
      else (obrace :: acc ++ [cbrace]) :: matchAux rest none
    else matchAux rest (some (acc ++ [c]))

/-- The placeholder list of a template, as `template.match(...) or []`. -/
def matchScan (cs : List Char) : List (List Char) := matchAux cs none

/-- The scanner state reached after consuming `cs` from state `st`. -/
def runState : List Char → Option (List Char) → Option (List Char)
  | [], st => st
  | c :: rest, none =>
    if c = obrace then runState rest (some []) else runState rest none
  | c :: rest, some acc =>
    if c = cbrace then runState rest none
    else runState rest (some (acc ++ [c]))

/-!
## JavaScript `String.prototype.replace` with a string pattern
-/

/-- Boolean prefix test on character lists. -/
def isPre : List Char → List Char → Bool
  | [], _ => true
  | _ :: _, [] => false
  | a :: as, b :: bs => a = b && isPre as bs

/-- Split a haystack around the first occurrence of `needle`:
`some (before, after)` with `hay = before ++ needle ++ after`, or `none`
when the needle does not occur. -/
def firstOccur (needle : List Char) : List Char → Option (List Char × List Char)
  | [] => if isPre needle [] then some ([], []) else none
  | c :: rest =>
    if isPre needle (c :: rest) then some ([], (c :: rest).drop needle.length)
    else
      match firstOccur needle rest with
      | some (b, a) => some (c :: b, a)
      | none => none

/-- ECMAScript `GetSubstitution` for a string search: expand the
dollar patterns of the replacement text.  `matched` is the search
string, `before` and `after` the haystack portions around the match. -/
def expand (matched before after : List Char) : List Char → List Char
  | [] => []
  | c :: rest =>
    if c = dollar then
      match rest with
      | [] => [dollar]
      | d :: rest2 =>
        if d = dollar then dollar :: expand matched before after rest2
        else if d = amp then matched ++ expand matched before after rest2
        else if d = bquote then before ++ expand matched before after rest2
        else if d = squote then after ++ expand matched before after rest2
        else dollar :: expand matched before after (d :: rest2)
    else c :: expand matched before after rest

/-- `hay.replace(needle, repl)` for JavaScript strings: replace the
first occurrence of `needle`, expanding dollar patterns in `repl`;
return `hay` unchanged when `needle` does not occur. -/
def jsReplace (hay needle repl : List Char) : List Char :=
  match firstOccur needle hay with
  | none => hay
  | some (b, a) => b ++ expand needle b a repl ++ a

end VibeCli

namespace VibeCli.Node

/-!
## `formatCommand` from the Node entry point (part_005, lines 142-163)

```
export function formatCommand(template: string, args: string[]): string \x7b
  let result = template;
  if (template.includes(.obrace.)) \x7b
    const placeholders = template.match(re) or [];
    for (let i = 0; i < placeholders.length; i++) \x7b
      const placeholder = placeholders[i];
      if (i < args.length) \x7b
        result = result.replace(placeholder, args[i]);
      \x7d
    \x7d
  \x7d
  return result;
\x7d
```
The loop body acts only while `i` is below both lengths, so it is the
left fold of `jsReplace` over `placeholders.zip args`.
-/

/-- The replacement loop of `formatCommand`: fold `jsReplace` over the
placeholder/argument pairs. -/
def substLoop : List Char → List (List Char × List Char) → List Char
  | r, [] => r
  | r, (p, a) :: rest => substLoop (jsReplace r p a) rest

/-- `formatCommand` from the Node entry point. -/
def formatCommand (template : String) (args : List String) : String :=
  let tc := template.toList
  if obrace ∈ tc then
    String.mk (substLoop tc ((matchScan tc).zip (args.map String.toList)))
  else template

end VibeCli.Node

namespace VibeCli.Shared

/-!
## `formatCommand` from `src/shared/utils.ts` (lines 118-136)

Identical scan, but each placeholder is rebuilt before the replacement:
`clean = placeholder.replace(/[\x7b\x7d]/g, ..)` strips every brace from
the matched text and the needle becomes an opening brace, `clean`, and a
closing brace.
-/

/-- `placeholder.replace(/[\x7b\x7d]/g, '')`: drop every brace character. -/
def stripBraces (p : List Char) : List Char :=
  p.filter (fun c => !(c = obrace || c = cbrace))

/-- The replacement loop of the shared `formatCommand`. -/
def substLoop : List Char → List (List Char × List Char) → List Char
  | r, [] => r
  | r, (p, a) :: rest =>
    substLoop (jsReplace r (obrace :: stripBraces p ++ [cbrace]) a) rest

/-- `formatCommand` from `src/shared/utils.ts`. -/
def formatCommand (template : String) (args : List String) : String :=
  let tc := template.toList
  if obrace ∈ tc then
    String.mk (substLoop tc ((matchScan tc).zip (args.map String.toList)))
  else template

end VibeCli.Shared

namespace VibeCli

/-!
## The specification-side formatter (spec section 4.1)

Reference definition written from the specification's words, used to
compare the code against the documented contract: placeholders are
resolved positionally in scan order, the i-th placeholder receives the
i-th argument, a placeholder with no argument stays verbatim, and a
replacement value is inserted opaquely and never re-scanned.
-/

/-- Spec-side renderer: one left-to-right pass; each placeholder
consumes the next argument (or stays verbatim when the arguments are
exhausted); inserted values are never re-scanned. -/
def renderAux : List Char → Option (List Char) → List (List Char) → List Char
  | [], none, _ => []
  | [], some acc, _ => obrace :: acc
  | c :: rest, none, args =>
    if c = obrace then renderAux rest (some []) args
    else c :: renderAux rest none args
  | c :: rest, some acc, args =>
    if c = cbrace then
      if acc = [] then obrace :: cbrace :: renderAux rest none args
      else
        match args with
        | [] => (obrace :: acc ++ [cbrace]) ++ renderAux rest none []
        | a :: args2 => a ++ renderAux rest none args2
    else renderAux rest (some (acc ++ [c])) args

/-- Spec-side positional substitution (section 4.1 of the spec). -/
def specSubst (template : String) (args : List String) : String :=
  String.mk (renderAux template.toList none (args.map String.toList))

end VibeCli

namespace VibeCli

/-!
## Command tables (part_005 lines 21-36, utils.ts lines 7-20)

JavaScript objects keyed by strings are embedded as association lists,
preserving insertion order.  Optional TS fields become `Option`s.
-/

/-- One command descriptor (`CommandConfig` in both source files). -/
structure CommandConfig where
  command : Option String
  description : Option String
  handler : Option String
  aliases : Option (List String)
deriving DecidableEq, Repr

/-- `ToolCommands`: command name to descriptor. -/
abbrev ToolCommands := List (String × CommandConfig)

/-- `AllCommands`: tool name to its command table. -/
abbrev AllCommands := List (String × ToolCommands)

/-- JavaScript truthiness of an optional string field: `undefined` and
the empty string are falsy. -/
def isTruthy : Option String → Bool
  | none => false
  | some s => !(s = "")

/-!
## The command-table loader (part_005 lines 107-118)

`loadCommands` reads `commands.yaml` and runs `yaml.load` inside a
`try`: a read failure or a parse failure is caught (logged, and the
empty table returned); a null/undefined parse falls back to the empty
table through `or \x7b\x7d`.  The file-system and YAML outcomes are the
model's input.
-/

/-- Outcome of reading and parsing the commands file. -/
inductive YamlOutcome (α : Type) where
  | readFailure (message : String)
  | parseFailure (message : String)
  | parsed (value : Option α)
deriving DecidableEq, Repr

/-- `loadCommands` from part_005: any failure yields the empty table. -/
def loadCommands : YamlOutcome AllCommands → AllCommands
  | .readFailure _ => []
  | .parseFailure _ => []
  | .parsed none => []
  | .parsed (some t) => t

/-!
## The resolution flow of `main` (part_005 lines 385-518)

`main` is I/O-bound; its decision structure is pure once the parsed
`cliArgs = process.argv.slice(2)` and the loaded table are fixed, and is
embedded as `mainResolve`.  Each constructor of `MainOutcome` records
what the branch does; `fatalEmptyTable`, `unknownTool`,
`unknownCommand` and `invalidConfig` print an error and exit with
code 1 (`unknownTool` after printing general help, `unknownCommand`
after printing tool help).
-/

/-- The observable outcome of one `main` invocation, before any shell
execution result is inspected. -/
inductive MainOutcome where
  | installAlias
  | uninstall
  | fatalEmptyTable
  | generalHelp (commands : AllCommands)
  | versionOut (v : String)
  | unknownTool (commands : AllCommands)
  | toolHelp (tool : String) (cmds : ToolCommands)
  | unknownCommand (tool : String) (cmds : ToolCommands)
  | commandHelp (tool cmd : String) (config : CommandConfig)
  | handlerRun (handler : String)
  | shellRun (finalCommand : String)
  | invalidConfig
deriving DecidableEq, Repr

/-- The CLI version constant of part_005. -/
def CLI_VERSION : String := "0.1.0"

/-- The decision flow of `main` (part_005): `install-alias` and
`uninstall` are dispatched before the tables are loaded; then an empty
loaded table is fatal; then help/version specials; then tool and
command lookup by plain key access. -/
def mainResolve (cliArgs : List String) (commands : AllCommands) : MainOutcome :=
  match cliArgs with
  | [] => if commands.isEmpty then .fatalEmptyTable else .generalHelp commands
  | a0 :: rest =>
    if a0 = "install-alias" then .installAlias
    else if a0 = "uninstall" then .uninstall
    else if commands.isEmpty then .fatalEmptyTable
    else if a0 = "help" then .generalHelp commands
    else if a0 = "--help" then .generalHelp commands
    else if a0 = "--version" then .versionOut CLI_VERSION
    else if a0 = "-v" then .versionOut CLI_VERSION
    else
      match commands.lookup a0 with
      | none => .unknownTool commands
      | some toolCommands =>
        match rest with
        | [] => .toolHelp a0 toolCommands
        | a1 :: rest2 =>
          if a1 = "help" then .toolHelp a0 toolCommands
          else
            match toolCommands.lookup a1 with
            | none => .unknownCommand a0 toolCommands
            | some config =>
              if rest2.headD "" = "help" then .commandHelp a0 a1 config
              else if isTruthy config.handler then
                .handlerRun (config.handler.getD "")
              else if isTruthy config.command then
                .shellRun (Node.formatCommand (config.command.getD "") rest2)
              else .invalidConfig

end VibeCli

namespace VibeCli.Shared

/-!
## `parseCommandArgs` from `src/shared/utils.ts` (lines 47-93)

The returned `CommandInfo` record has all-optional fields; it is
embedded as a structure of `Option`s, with the fields a branch does not
mention left `none`.
-/

/-- The `CommandInfo` record shape of utils.ts. -/
structure CommandInfo where
  type : Option String
  tool : Option String
  command : Option String
  config : Option CommandConfig
  args : Option (List String)
  error : Option String
  showHelp : Option Bool
  toolHelp : Option String
  commands : Option ToolCommands
  commandHelp : Option Bool
deriving DecidableEq, Repr

/-- The record with every field absent. -/
def emptyInfo : CommandInfo :=
  ⟨none, none, none, none, none, none, none, none, none, none⟩

/-- `parseCommandArgs` from utils.ts. -/
def parseCommandArgs (args : List String) (commands : AllCommands) : CommandInfo :=
  match args with
  | [] => { emptyInfo with error := some "No command specified", showHelp := some true }
  | a0 :: rest =>
    if a0 = "--version" ∨ a0 = "-v" then
      { emptyInfo with type := some "system", command := some "version", args := some [] }
    else if a0 = "help" ∨ a0 = "--help" ∨ a0 = "-h" then
      { emptyInfo with showHelp := some true }
    else
      match commands.lookup a0 with
      | none => { emptyInfo with error := some ("Unknown tool: " ++ a0), showHelp := some true }
      | some tc =>
        match rest with
        | [] => { emptyInfo with toolHelp := some a0, commands := some tc }
        | a1 :: rest2 =>
          if a1 = "help" then { emptyInfo with toolHelp := some a0, commands := some tc }
          else
            match tc.lookup a1 with
            | none =>
              { emptyInfo with
                  error := some ("Unknown command: " ++ a0 ++ " " ++ a1),
                  toolHelp := some a0, commands := some tc }
            | some config =>
              if rest2.headD "" = "help" then
                { emptyInfo with
                    commandHelp := some true, tool := some a0,
                    command := some a1, config := some config }
              else
                { emptyInfo with
                    tool := some a0, command := some a1,
                    config := some config, args := some rest2 }

end VibeCli.Shared

namespace VibeCli

/-!
## The shell executor (part_005 lines 166-184)

`executeShellCommand` wraps `execSync(command)` in a `try`.  The child
process behaviour is the model's input: `execSync` returns the standard
output when the shell exits with status 0 and throws otherwise, the
thrown error carrying a message and, for a non-zero exit, the captured
output streams.
-/

/-- Behaviour of the spawned shell for one command. -/
inductive ChildBehavior where
  | exits (code : Nat) (out errOut : String)
  | spawnFailure (message : String)
deriving DecidableEq, Repr

/-- The error object `execSync` throws. -/
structure ExecError where
  message : String
  stdout : Option String
  stderr : Option String
deriving DecidableEq, Repr

/-- `execSync` semantics: ok on exit status 0, an exception otherwise. -/
def execSyncModel : ChildBehavior → Except ExecError String
  | .exits code out errOut =>
    if code = 0 then .ok out
    else .error ⟨"Command failed: exit code " ++ toString code, some out, some errOut⟩
  | .spawnFailure msg => .error ⟨msg, none, none⟩

/-- The `CommandResult` record of part_005 (lines 38-44). -/
structure CommandResult where
  type : String
  success : Option Bool
  stdout : Option String
  stderr : Option String
  error : Option String
deriving DecidableEq, Repr

/-- `executeShellCommand` from part_005: always returns a structured
result; the `catch` branch turns any thrown error into a failure
record, defaulting absent streams to the empty string. -/
def executeShellCommand (child : ChildBehavior) : CommandResult :=
  match execSyncModel child with
  | .ok out => ⟨"shell", some true, some out, none, none⟩
  | .error e => ⟨"shell", some false, some (e.stdout.getD ""), some (e.stderr.getD ""), some e.message⟩

/-!
## A fragment of shell command parsing

Modelled from the spec: `executeShellCommand` hands the formatted string
to a shell-interpreting executor (section 4.3: the design accepts
shell-interpreted strings), and an unquoted semicolon separates shell
commands.  `splitOnSemi` models that top-level splitting for strings
containing no quoting, which is what reaches the shell here because
`formatCommand` adds none.
-/

/-- Split a command string at every (unquoted) semicolon. -/
def splitOnSemi : List Char → List (List Char)
  | [] => [[]]
  | c :: rest =>
    if c = ';' then [] :: splitOnSemi rest
    else
      match splitOnSemi rest with
      | [] => [[c]]
      | g :: gs => (c :: g) :: gs

/-- The list of shell commands the shell would run for a command line. -/
def shellCommandsOf (s : String) : List String :=
  (splitOnSemi s.toList).map (fun g => String.mk g)

end VibeCli

namespace VibeCli

/-!
## Scanner lemmas
-/

theorem obrace_ne_cbrace : obrace ≠ cbrace := by decide

theorem cbrace_ne_obrace : cbrace ≠ obrace := by decide

/-- Scanning a concatenation: the matches of the first part from the
initial state, then the matches of the second part from the state the
first part reaches. -/
theorem matchAux_append (s : List Char) :
    ∀ (t : List Char) (st : Option (List Char)),
      matchAux (s ++ t) st = matchAux s st ++ matchAux t (runState s st) := by
  induction s with
  | nil => intro t st; simp [matchAux, runState]
  | cons c rest ih =>
    intro t st
    match st with
    | none =>
      by_cases h : c = obrace <;>
        simp [matchAux, runState, h, ih]
    | some acc =>
      by_cases h : c = cbrace
      · by_cases ha : acc = [] <;>
          simp [matchAux, runState, h, ha, ih]
      · simp [matchAux, runState, h, ih]

/-- State reached over a concatenation. -/
theorem runState_append (s : List Char) :
    ∀ (t : List Char) (st : Option (List Char)),
      runState (s ++ t) st = runState t (runState s st) := by
  induction s with
  | nil => intro t st; simp [runState]
  | cons c rest ih =>
    intro t st
    match st with
    | none =>
      by_cases h : c = obrace <;> simp [runState, h, ih]
    | some acc =>
      by_cases h : c = cbrace <;> simp [runState, h, ih]

/-- Text without an opening brace produces no match and keeps the
scanner outside a candidate match. -/
theorem scan_of_no_obrace {a : List Char} (h : obrace ∉ a) :
    matchAux a none = [] ∧ runState a none = none := by
  induction a with
  | nil => exact ⟨rfl, rfl⟩
  | cons c rest ih =>
    have hc : c ≠ obrace := fun hc => h (hc ▸ List.mem_cons_self c rest)
    have hr : obrace ∉ rest := fun hm => h (List.mem_cons_of_mem c hm)
    have := ih hr
    constructor
    · simp [matchAux, hc, this.1]
    · simp [runState, hc, this.2]

/-- Accumulation: running the scanner inside a candidate match over the
closing-brace-free interior and its closing brace. -/
theorem matchAux_interior {name : List Char} (h : cbrace ∉ name) :
    ∀ (acc v : List Char),
      matchAux (name ++ cbrace :: v) (some acc) =
        (if acc ++ name = [] then matchAux v none
         else (obrace :: (acc ++ name) ++ [cbrace]) :: matchAux v none) := by
  induction name with
  | nil =>
    intro acc v
    by_cases ha : acc = [] <;> simp [matchAux, ha]
  | cons c rest ih =>
    intro acc v
    have hc : c ≠ cbrace := fun hc => h (hc ▸ List.mem_cons_self c rest)
    have hr : cbrace ∉ rest := fun hm => h (List.mem_cons_of_mem c hm)
    have hne : acc ++ c :: rest ≠ [] := by simp
    have hne2 : (acc ++ [c]) ++ rest ≠ [] := by simp
    simp only [List.cons_append, matchAux, if_neg hc, List.append_eq]
    rw [ih hr (acc ++ [c]) v, if_neg hne2, if_neg hne]
    simp

/-- A scan from inside a candidate match whose remaining text has no
closing brace yields nothing. -/
theorem matchAux_no_cbrace {cs : List Char} (h : cbrace ∉ cs) :
    ∀ acc, matchAux cs (some acc) = [] := by
  induction cs with
  | nil => intro acc; rfl
  | cons c rest ih =>
    intro acc
    have hc : c ≠ cbrace := fun hc => h (hc ▸ List.mem_cons_self c rest)
    have hr : cbrace ∉ rest := fun hm => h (List.mem_cons_of_mem c hm)
    simp [matchAux, hc, ih hr]

/-!
## Renderer lemmas
-/

/-- With no arguments, the spec-side renderer reproduces its input
(placeholders stay verbatim). -/
theorem renderAux_nil_args :
    ∀ (cs : List Char) (st : Option (List Char)),
      renderAux cs st [] =
        (match st with | none => cs | some acc => obrace :: acc ++ cs) := by
  intro cs
  induction cs with
  | nil => intro st; match st with | none => rfl | some acc => simp [renderAux]
  | cons c rest ih =>
    intro st
    match st with
    | none =>
      by_cases h : c = obrace
      · subst h; simpa [renderAux] using ih (some [])
      · simp [renderAux, h, ih none]
    | some acc =>
      by_cases h : c = cbrace
      · subst h
        by_cases ha : acc = []
        · subst ha; simp [renderAux, ih none]
        · simp [renderAux, ha, ih none]
      · simpa [renderAux, h] using ih (some (acc ++ [c]))

/-- Text without an opening brace renders verbatim. -/
theorem renderAux_no_obrace {cs : List Char} (h : obrace ∉ cs) (args : List (List Char)) :
    renderAux cs none args = cs := by
  induction cs with
  | nil => rfl
  | cons c rest ih =>
    have hc : c ≠ obrace := fun hc => h (hc ▸ List.mem_cons_self c rest)
    have hr : obrace ∉ rest := fun hm => h (List.mem_cons_of_mem c hm)
    simp [renderAux, hc, ih hr]

/-- Accumulation for the renderer inside a candidate match. -/
theorem renderAux_interior {name : List Char} (h : cbrace ∉ name) :
    ∀ (acc v : List Char) (args : List (List Char)),
      renderAux (name ++ cbrace :: v) (some acc) args =
        (if acc ++ name = [] then obrace :: cbrace :: renderAux v none args
         else
           match args with
           | [] => (obrace :: (acc ++ name) ++ [cbrace]) ++ renderAux v none []
           | a :: args2 => a ++ renderAux v none args2) := by
  induction name with
  | nil =>
    intro acc v args
    by_cases ha : acc = [] <;> simp [renderAux, ha]
  | cons c rest ih =>
    intro acc v args
    have hc : c ≠ cbrace := fun hc => h (hc ▸ List.mem_cons_self c rest)
    have hr : cbrace ∉ rest := fun hm => h (List.mem_cons_of_mem c hm)
    have hne : acc ++ c :: rest ≠ [] := by simp
    have hne2 : (acc ++ [c]) ++ rest ≠ [] := by simp
    simp only [List.cons_append, renderAux, if_neg hc, List.append_eq]
    rw [ih hr (acc ++ [c]) v args, if_neg hne2, if_neg hne]
    match args with
    | [] => simp
    | a :: args2 => simp

/-- Rendering from inside a candidate match with no closing brace left:
the consumed text comes back verbatim. -/
theorem renderAux_no_cbrace {cs : List Char} (h : cbrace ∉ cs) :
    ∀ (acc : List Char) (args : List (List Char)),
      renderAux cs (some acc) args = obrace :: acc ++ cs := by
  induction cs with
  | nil => intro acc args; simp [renderAux]
  | cons c rest ih =>
    intro acc args
    have hc : c ≠ cbrace := fun hc => h (hc ▸ List.mem_cons_self c rest)
    have hr : cbrace ∉ rest := fun hm => h (List.mem_cons_of_mem c hm)
    simp [renderAux, hc, ih hr]

end VibeCli

namespace VibeCli

/-!
## Prefix and first-occurrence lemmas
-/

theorem isPre_self_append (p : List Char) : ∀ t, isPre p (p ++ t) = true := by
  induction p with
  | nil => intro t; rfl
  | cons c rest ih => intro t; simp [isPre, ih t]

theorem isPre_exists {p : List Char} :
    ∀ {s : List Char}, isPre p s = true → ∃ w, s = p ++ w := by
  induction p with
  | nil => intro s _; exact ⟨s, rfl⟩
  | cons c rest ih =>
    intro s h
    match s with
    | [] => simp [isPre] at h
    | b :: bs =>
      simp only [isPre, Bool.and_eq_true, decide_eq_true_eq] at h
      obtain ⟨w, hw⟩ := ih h.2
      exact ⟨w, by simp [h.1, hw]⟩

/-- A first occurrence of `a` in two decompositions that both avoid `a`
on the left agree. -/
theorem firstSplitUnique {a : Char} :
    ∀ {s t x y : List Char}, a ∉ s → a ∉ t →
      s ++ a :: x = t ++ a :: y → s = t ∧ x = y := by
  intro s
  induction s with
  | nil =>
    intro t x y _ ht h
    match t with
    | [] => simpa using h
    | c :: t2 =>
      simp only [List.nil_append, List.cons_append, List.cons.injEq] at h
      exact absurd (h.1 ▸ List.mem_cons_self c t2) ht
  | cons c s2 ih =>
    intro t x y hs ht h
    match t with
    | [] =>
      simp only [List.cons_append, List.nil_append, List.cons.injEq] at h
      exact absurd (h.1 ▸ List.mem_cons_self c s2) hs
    | d :: t2 =>
      simp only [List.cons_append, List.cons.injEq] at h
      have hs2 : a ∉ s2 := fun hm => hs (List.mem_cons_of_mem c hm)
      have ht2 : a ∉ t2 := fun hm => ht (List.mem_cons_of_mem d hm)
      obtain ⟨h1, h2⟩ := ih hs2 ht2 h.2
      exact ⟨by simp [h.1, h1], h2⟩

/-- A placeholder-shaped string (opening brace, nonempty closing-brace-free
interior, closing brace) cannot overlap itself with a nontrivial shift. -/
theorem ph_no_self_overlap {name : List Char} (hname : name ≠ []) (hfree : cbrace ∉ name)
    {k : Nat} (hk1 : 1 ≤ k) (hk2 : k < (obrace :: name ++ [cbrace]).length) :
    ¬ ∃ w, (obrace :: name ++ [cbrace]).drop k ++ w = obrace :: name ++ [cbrace] := by
  rintro ⟨w, hw⟩
  set p : List Char := obrace :: name ++ [cbrace] with hp
  have hlen : p.length = name.length + 2 := by simp [hp]
  have hdk : p.drop k = (name ++ [cbrace]).drop (k - 1) := by
    match k, hk1 with
    | Nat.succ k2, _ => simp [hp]
  have hk1' : k - 1 ≤ name.length := by
    have : k ≤ name.length + 1 := by omega
    omega
  have hdk2 : p.drop k = name.drop (k - 1) ++ [cbrace] := by
    rw [hdk, List.drop_append_eq_append_drop]
    congr 1
    have : k - 1 - name.length = 0 := by omega
    simp [this]
  match hd : name.drop (k - 1) with
  | [] =>
    rw [hdk2, hd] at hw
    simp only [List.nil_append, hp] at hw
    have : cbrace = obrace := by
      have := congrArg (fun l => l.headD ' ') hw
      simpa using this
    exact cbrace_ne_obrace this
  | c :: d2 =>
    rw [hdk2, hd] at hw
    have hco : c = obrace := by
      have := congrArg (fun l => l.headD ' ') hw
      simpa [hp] using this
    have htail : d2 ++ cbrace :: w = name ++ cbrace :: [] := by
      have := congrArg List.tail hw
      simpa [hp] using this
    have hd2free : cbrace ∉ d2 := by
      intro hm
      apply hfree
      have : d2 ⊆ name := by
        intro x hx
        have hx2 : x ∈ name.drop (k - 1) := by rw [hd]; exact List.mem_cons_of_mem c hx
        exact List.drop_subset _ _ hx2
      exact this hm
    obtain ⟨hfeq, -⟩ := firstSplitUnique hd2free hfree htail
    have hlt : d2.length < name.length := by
      have hdroplen : (name.drop (k - 1)).length = name.length - (k - 1) := by
        simp [List.length_drop]
      rw [hd] at hdroplen
      simp only [List.length_cons] at hdroplen
      have hne : name.length ≠ 0 := fun h0 => hname (List.eq_nil_of_length_eq_zero h0)
      omega
    rw [hfeq] at hlt
    omega

/-- If the scanner finds no match in `s`, no placeholder-shaped string
occurs as a substring of `s`. -/
theorem no_ph_occurrence {s : List Char} (hscan : matchAux s none = [])
    {name : List Char} (hname : name ≠ []) (hfree : cbrace ∉ name) :
    ¬ ∃ u v, s = u ++ (obrace :: name ++ [cbrace]) ++ v := by
  rintro ⟨u, v, rfl⟩
  rw [List.append_assoc, matchAux_append] at hscan
  have h2 : matchAux ((obrace :: name ++ [cbrace]) ++ v) (runState u none) ≠ [] := by
    have hmid : ∀ st, matchAux ((obrace :: name ++ [cbrace]) ++ v) st ≠ [] := by
      intro st
      match st with
      | none =>
        have : (obrace :: name ++ [cbrace]) ++ v = obrace :: (name ++ cbrace :: v) := by simp
        rw [this]
        simp only [matchAux, if_pos rfl]
        rw [matchAux_interior hfree [] v]
        simp [hname]
      | some acc =>
        have : (obrace :: name ++ [cbrace]) ++ v = obrace :: (name ++ cbrace :: v) := by simp
        rw [this]
        simp only [matchAux, if_neg obrace_ne_cbrace]
        rw [matchAux_interior hfree (acc ++ [obrace]) v]
        simp
    exact hmid (runState u none)
  exact h2 (List.append_eq_nil.mp hscan).2

/-- When the needle heads a decomposition whose prefix has no earlier
occurrence, `firstOccur` returns exactly that decomposition. -/
theorem firstOccur_junction {p : List Char} (hp : p ≠ []) (tail : List Char) :
    ∀ done : List Char,
      (∀ s t, done = s ++ t → t ≠ [] → isPre p (t ++ (p ++ tail)) = false) →
      firstOccur p (done ++ (p ++ tail)) = some (done, tail) := by
  intro done
  induction done with
  | nil =>
    intro _
    obtain ⟨c, p2, rfl⟩ : ∃ c p2, p = c :: p2 := by
      cases p with
      | nil => exact absurd rfl hp
      | cons c p2 => exact ⟨c, p2, rfl⟩
    have hpre : isPre (c :: p2) (c :: (p2 ++ tail)) = true := by
      simpa using isPre_self_append (c :: p2) tail
    have hdrop : (c :: (p2 ++ tail)).drop (c :: p2).length = tail := by
      simp [List.drop_left (c :: p2) tail]
    simp only [List.nil_append, List.cons_append, firstOccur, List.append_eq]
    rw [if_pos hpre, hdrop]
  | cons d rest ih =>
    intro hno
    have hfalse : isPre p (d :: (rest ++ (p ++ tail))) = false := by
      have h0 := hno [] (d :: rest) rfl (by simp)
      simpa using h0
    have hfalse2 : ¬ (isPre p (d :: (rest ++ (p ++ tail))) = true) := by
      simp [hfalse]
    have hrec := ih (fun s t hst ht => hno (d :: s) t (by simp [hst]) ht)
    simp only [List.cons_append, List.append_eq, firstOccur, if_neg hfalse2, hrec]

/-- A replacement string without a dollar character expands to itself. -/
theorem expand_of_no_dollar {m b af : List Char} :
    ∀ {a : List Char}, dollar ∉ a → expand m b af a = a := by
  intro a
  induction a with
  | nil => intro _; rfl
  | cons c rest ih =>
    intro h
    have hc : c ≠ dollar := fun hc => h (hc ▸ List.mem_cons_self c rest)
    have hr : dollar ∉ rest := fun hm => h (List.mem_cons_of_mem c hm)
    rw [expand.eq_def]
    simp only [if_neg hc, ih hr]

/-- Split a list at the first occurrence of an element. -/
theorem exists_firstSplit {a : Char} :
    ∀ {l : List Char}, a ∈ l → ∃ s t, l = s ++ a :: t ∧ a ∉ s := by
  intro l
  induction l with
  | nil => intro h; cases h
  | cons c rest ih =>
    intro h
    by_cases hc : c = a
    · exact ⟨[], rest, by simp [hc], List.not_mem_nil a⟩
    · have : a ∈ rest := by
        match h with
        | List.Mem.head _ => exact absurd rfl hc
        | List.Mem.tail _ hm => exact hm
      obtain ⟨s, t, h1, h2⟩ := ih this
      exact ⟨c :: s, t, by simp [h1], by
        intro hm
        match hm with
        | List.Mem.head _ => exact hc rfl
        | List.Mem.tail _ hm2 => exact h2 hm2⟩

end VibeCli

namespace VibeCli

/-- If the scanner finds no match in `done`, the first occurrence of a
placeholder-shaped needle in `done ++ needle ++ tail` is exactly the one
at the junction. -/
theorem firstOccur_clean {done name : List Char} (hscan : matchAux done none = [])
    (hname : name ≠ []) (hfree : cbrace ∉ name) (tail : List Char) :
    firstOccur (obrace :: name ++ [cbrace])
        (done ++ ((obrace :: name ++ [cbrace]) ++ tail)) = some (done, tail) := by
  have hp : (obrace :: name ++ [cbrace]) ≠ [] := by simp
  apply firstOccur_junction hp tail done
  intro s t hst ht
  set p : List Char := obrace :: name ++ [cbrace] with hpdef
  cases hb : isPre p (t ++ (p ++ tail)) with
  | false => rfl
  | true =>
    exfalso
    obtain ⟨w, hw⟩ := isPre_exists hb
    by_cases hlen : p.length ≤ t.length
    · have htake : t.take p.length = p := by
        have h1 := congrArg (fun l => List.take p.length l) hw
        simp only [List.take_append_eq_append_take, List.take_left] at h1
        have hz : p.length - t.length = 0 := by omega
        rw [hz] at h1
        simpa using h1
      have hdec : t = p ++ t.drop p.length := by
        conv_lhs => rw [← List.take_append_drop p.length t]
        rw [htake]
      refine no_ph_occurrence hscan hname hfree ⟨s, t.drop p.length, ?_⟩
      have hdone : done = s ++ (p ++ t.drop p.length) := by
        rw [hst]
        exact congrArg (fun l => s ++ l) hdec
      rw [hdone, hpdef]
      simp [List.append_assoc]
    · push_neg at hlen
      have htk : p.take t.length = t := by
        have h1 := congrArg (fun l => List.take t.length l) hw
        simp only [List.take_append_eq_append_take, List.take_left] at h1
        have hz1 : t.length - t.length = 0 := by omega
        have hz2 : t.length - p.length = 0 := by omega
        rw [hz1, hz2] at h1
        simpa using h1.symm
      have hpt : p = t ++ p.drop t.length := by
        conv_lhs => rw [← List.take_append_drop t.length p]
        rw [htk]
      have hcancel : p ++ tail = p.drop t.length ++ w := by
        have h2 : t ++ (p ++ tail) = t ++ (p.drop t.length ++ w) := by
          rw [hw]
          conv_lhs => rw [hpt]
          rw [List.append_assoc]
        exact List.append_cancel_left h2
      have hrlen : (p.drop t.length).length ≤ p.length := by
        simp [List.length_drop]
      have hpre1 : (p.drop t.length) <+: (p ++ tail) := ⟨w, hcancel.symm⟩
      have hpre2 : p <+: (p ++ tail) := List.prefix_append p tail
      have hfin : ∃ w2, p.drop t.length ++ w2 = p :=
        List.prefix_of_prefix_length_le hpre1 hpre2 hrlen
      have ht1 : 1 ≤ t.length := by
        cases t with
        | nil => exact absurd rfl ht
        | cons _ _ => simp
      exact ph_no_self_overlap hname hfree ht1 hlen hfin

/-- Reduce `jsReplace` once the first occurrence is known. -/
theorem jsReplace_of_firstOccur {hay needle repl b af : List Char}
    (h : firstOccur needle hay = some (b, af)) :
    jsReplace hay needle repl = b ++ expand needle b af repl ++ af := by
  unfold jsReplace
  rw [h]

/-- Invariant preservation for appending scanned-clean text. -/
theorem inv_append {done a : List Char} (h1 : matchAux done none = [])
    (h2 : runState done none = none) (h3 : matchAux a none = [])
    (h4 : runState a none = none) :
    matchAux (done ++ a) none = [] ∧ runState (done ++ a) none = none := by
  refine ⟨?_, ?_⟩
  · rw [matchAux_append, h1, h2, h3]
    rfl
  · rw [runState_append, h2, h4]

/-- Main simulation lemma: starting from a prefix `done` in which the
scanner finds no match and ends outside a candidate match, the
replacement loop of the Node `formatCommand` computes exactly the
spec-side positional rendering of the remaining template, provided no
argument contains an opening brace or a dollar character. -/
theorem substLoop_renders :
    ∀ (n : Nat) (cs done : List Char) (args : List (List Char)),
      cs.length ≤ n →
      matchAux done none = [] →
      runState done none = none →
      (∀ a ∈ args, obrace ∉ a ∧ dollar ∉ a) →
      Node.substLoop (done ++ cs) ((matchAux cs none).zip args) =
        done ++ renderAux cs none args := by
  intro n
  induction n with
  | zero =>
    intro cs done args hlen _ _ _
    have hnil : cs = [] := List.eq_nil_of_length_eq_zero (Nat.le_zero.mp hlen)
    subst hnil
    simp [matchAux, renderAux, Node.substLoop]
  | succ n ih =>
    intro cs done args hlen hscan hstate hargs
    match cs with
    | [] => simp [matchAux, renderAux, Node.substLoop]
    | c :: rest =>
      by_cases hc : c = obrace
      · subst hc
        by_cases hmem : cbrace ∈ rest
        · obtain ⟨i, r, hir, hfree⟩ := exists_firstSplit hmem
          subst hir
          by_cases hi : i = []
          · subst hi
            simp only [List.nil_append] at hlen ⊢
            have hm : matchAux (obrace :: cbrace :: r) none = matchAux r none := by
              simp [matchAux, obrace_ne_cbrace]
            have hrd : renderAux (obrace :: cbrace :: r) none args =
                obrace :: cbrace :: renderAux r none args := by
              simp [renderAux, obrace_ne_cbrace]
            have hinv := inv_append hscan hstate
              (show matchAux [obrace, cbrace] none = [] by simp [matchAux, obrace_ne_cbrace])
              (show runState [obrace, cbrace] none = none by simp [runState, obrace_ne_cbrace])
            have hlen2 : r.length ≤ n := by
              simp only [List.length_cons] at hlen
              omega
            have := ih r (done ++ [obrace, cbrace]) args hlen2 hinv.1 hinv.2 hargs
            rw [hm, hrd]
            calc Node.substLoop (done ++ obrace :: cbrace :: r) ((matchAux r none).zip args)
                = Node.substLoop ((done ++ [obrace, cbrace]) ++ r) ((matchAux r none).zip args) := by
                  simp
              _ = (done ++ [obrace, cbrace]) ++ renderAux r none args := this
              _ = done ++ obrace :: cbrace :: renderAux r none args := by simp
          · have hm : matchAux (obrace :: (i ++ cbrace :: r)) none =
                (obrace :: i ++ [cbrace]) :: matchAux r none := by
              have h0 : matchAux (obrace :: (i ++ cbrace :: r)) none =
                  matchAux (i ++ cbrace :: r) (some []) := by
                simp [matchAux]
              rw [h0, matchAux_interior hfree [] r]
              simp [hi]
            match args with
            | [] =>
              rw [hm]
              simp only [List.zip_nil_right, Node.substLoop]
              have hrd : renderAux (obrace :: (i ++ cbrace :: r)) none [] =
                  obrace :: (i ++ cbrace :: r) := by
                rw [renderAux_nil_args]
              rw [hrd]
            | a :: args2 =>
              have hrd : renderAux (obrace :: (i ++ cbrace :: r)) none (a :: args2) =
                  a ++ renderAux r none args2 := by
                have h0 : renderAux (obrace :: (i ++ cbrace :: r)) none (a :: args2) =
                    renderAux (i ++ cbrace :: r) (some []) (a :: args2) := by
                  simp [renderAux]
                rw [h0, renderAux_interior hfree [] r]
                simp [hi]
              have hha := hargs a (List.mem_cons_self a args2)
              have hargs2 : ∀ x ∈ args2, obrace ∉ x ∧ dollar ∉ x :=
                fun x hx => hargs x (List.mem_cons_of_mem a hx)
              have hsplit : done ++ obrace :: (i ++ cbrace :: r) =
                  done ++ ((obrace :: i ++ [cbrace]) ++ r) := by
                simp
              have hrepl : jsReplace (done ++ obrace :: (i ++ cbrace :: r))
                  (obrace :: i ++ [cbrace]) a = (done ++ a) ++ r := by
                rw [hsplit, jsReplace_of_firstOccur (firstOccur_clean hscan hi hfree r),
                  expand_of_no_dollar hha.2]
              have hascan := scan_of_no_obrace hha.1
              have hinv := inv_append hscan hstate hascan.1 hascan.2
              have hlen2 : r.length ≤ n := by
                simp only [List.length_cons, List.length_append] at hlen
                omega
              have hrec := ih r (done ++ a) args2 hlen2 hinv.1 hinv.2 hargs2
              rw [hm, hrd]
              show Node.substLoop (done ++ obrace :: (i ++ cbrace :: r))
                  (((obrace :: i ++ [cbrace]), a) :: (matchAux r none).zip args2) =
                done ++ (a ++ renderAux r none args2)
              rw [Node.substLoop, hrepl]
              rw [hrec]
              simp
        · have hm : matchAux (obrace :: rest) none = [] := by
            have h0 : matchAux (obrace :: rest) none = matchAux rest (some []) := by
              simp [matchAux]
            rw [h0, matchAux_no_cbrace hmem]
          have hrd : renderAux (obrace :: rest) none args = obrace :: rest := by
            have h0 : renderAux (obrace :: rest) none args =
                renderAux rest (some []) args := by
              simp [renderAux]
            rw [h0, renderAux_no_cbrace hmem]
            simp
          rw [hm, hrd]
          simp [Node.substLoop]
      · have hm : matchAux (c :: rest) none = matchAux rest none := by
          simp [matchAux, hc]
        have hrd : renderAux (c :: rest) none args = c :: renderAux rest none args := by
          simp [renderAux, hc]
        have hinv := inv_append hscan hstate
          (show matchAux [c] none = [] by simp [matchAux, hc])
          (show runState [c] none = none by simp [runState, hc])
        have hlen2 : rest.length ≤ n := by
          simp only [List.length_cons] at hlen
          omega
        have hrec := ih rest (done ++ [c]) args hlen2 hinv.1 hinv.2 hargs
        rw [hm, hrd]
        calc Node.substLoop (done ++ c :: rest) ((matchAux rest none).zip args)
            = Node.substLoop ((done ++ [c]) ++ rest) ((matchAux rest none).zip args) := by simp
          _ = (done ++ [c]) ++ renderAux rest none args := hrec
          _ = done ++ c :: renderAux rest none args := by simp

end VibeCli

namespace VibeCli

/-- Rebuilding a string from its character list is the identity. -/
theorem mk_toList (s : String) : String.mk s.toList = s := rfl

/-!
## Claim theorems
-/

/-- C1: the spec demands that argument values be shell-escaped/quoted
individually before substitution so that shell metacharacters in an
argument cannot trigger extra commands.  The code does no escaping:
substituting the argument containing a semicolon and rm -rf produces a
command line that the shell-interpreting executor would split into two
commands, the second being the injected rm -rf — the code violates the
claimed security invariant. -/
theorem C1_injection_unsafe :
    Node.formatCommand "git checkout {0}" ["; rm -rf /"] = "git checkout ; rm -rf /" ∧
      shellCommandsOf (Node.formatCommand "git checkout {0}" ["; rm -rf /"]) =
        ["git checkout ", " rm -rf /"] := by
  refine ⟨?_, ?_⟩ <;> decide

/-- C4: `executeShellCommand` always returns a structured result (it is
a total function into `CommandResult`, never raising to its caller),
with `success = some true` exactly when the child exits with status 0,
and any launch failure captured as the result's error message with
`success = some false`. -/
theorem C4_executor_contract (code : Nat) (out errOut msg : String) :
    (executeShellCommand (.exits code out errOut)).type = "shell" ∧
      (executeShellCommand (.exits code out errOut)).success = some (decide (code = 0)) ∧
      (executeShellCommand (.spawnFailure msg)).type = "shell" ∧
      (executeShellCommand (.spawnFailure msg)).success = some false ∧
      (executeShellCommand (.spawnFailure msg)).error = some msg := by
  by_cases h : code = 0 <;> simp [executeShellCommand, execSyncModel, h]

/-- C10: for every template, including templates containing
placeholders, both formatters return the template unchanged on the
empty argument list. -/
theorem C10_empty_args_identity (template : String) :
    Node.formatCommand template [] = template ∧
      Shared.formatCommand template [] = template := by
  constructor
  · unfold Node.formatCommand
    by_cases hmem : obrace ∈ template.toList
    · simp only [if_pos hmem, List.map_nil, List.zip_nil_right, Node.substLoop]
      exact mk_toList template
    · simp only [if_neg hmem]
  · unfold Shared.formatCommand
    by_cases hmem : obrace ∈ template.toList
    · simp only [if_pos hmem, List.map_nil, List.zip_nil_right, Shared.substLoop]
      exact mk_toList template
    · simp only [if_neg hmem]

/-- C2 counterexample: the claim fails as stated.  With an argument
containing a dollar pattern, the placeholder is not replaced by the
argument text (JS replacement expands dollar patterns); and with an
argument containing a later placeholder's token, a later substitution
step replaces the occurrence inside the inserted argument instead of
the template's own placeholder, so the second placeholder is left
verbatim even though an argument for it exists. -/
theorem C2_counterexample :
    Node.formatCommand "{0}" ["$$"] = "$" ∧
      specSubst "{0}" ["$$"] = "$$" ∧
      Node.formatCommand "{0}" ["$$"] ≠ specSubst "{0}" ["$$"] ∧
      Node.formatCommand "b {0} {9}" ["{9}", "Y"] = "b Y {9}" ∧
      specSubst "b {0} {9}" ["{9}", "Y"] = "b {9} Y" ∧
      Node.formatCommand "b {0} {9}" ["{9}", "Y"] ≠ specSubst "b {0} {9}" ["{9}", "Y"] := by
  refine ⟨?_, ?_, ?_, ?_, ?_, ?_⟩ <;> decide

/-- C2 (amended): provided no argument value contains an opening brace
or a dollar character, `formatCommand` resolves placeholders exactly as
the claim states — the i-th placeholder in scan order receives the i-th
argument and placeholders without arguments stay verbatim, which is
what the spec-side renderer `specSubst` computes. -/
theorem C2_positional (template : String) (args : List String)
    (h : ∀ a ∈ args, obrace ∉ a.toList ∧ dollar ∉ a.toList) :
    Node.formatCommand template args = specSubst template args := by
  unfold Node.formatCommand specSubst
  by_cases hmem : obrace ∈ template.toList
  · simp only [if_pos hmem]
    have hargs : ∀ x ∈ args.map String.toList, obrace ∉ x ∧ dollar ∉ x := by
      intro x hx
      obtain ⟨a, ha, rfl⟩ := List.mem_map.mp hx
      exact h a ha
    have hmain := substLoop_renders template.toList.length template.toList []
      (args.map String.toList) le_rfl rfl rfl hargs
    simp only [List.nil_append] at hmain
    unfold matchScan
    rw [hmain]
  · simp only [if_neg hmem]
    rw [renderAux_no_obrace hmem, mk_toList]

/-- Witness for the amended C2 at the claim's own example. -/
theorem C2_positional_witness :
    (∀ a ∈ (["main"] : List String), obrace ∉ a.toList ∧ dollar ∉ a.toList) ∧
      Node.formatCommand "git checkout {0} {1}" ["main"] =
        specSubst "git checkout {0} {1}" ["main"] ∧
      Node.formatCommand "git checkout {0} {1}" ["main"] = "git checkout main {1}" :=
  ⟨by decide, C2_positional "git checkout {0} {1}" ["main"] (by decide), by decide⟩

end VibeCli

namespace VibeCli

/-- C3 counterexample: the claim fails as stated.  The first argument's
text contains the second placeholder's token; the second substitution
step replaces that inserted occurrence (the first occurrence of the
needle in the partially substituted string), so a replacement value is
re-matched by a later substitution step. -/
theorem C3_counterexample :
    Node.formatCommand "a {0} {1}" ["{1}", "X"] = "a X {1}" ∧
      specSubst "a {0} {1}" ["{1}", "X"] = "a {1} X" ∧
      Node.formatCommand "a {0} {1}" ["{1}", "X"] ≠ specSubst "a {0} {1}" ["{1}", "X"] := by
  refine ⟨?_, ?_, ?_⟩ <;> decide

/-- C3 (amended): substitution is not recursive — an argument is
inserted verbatim and is never expanded again.  In particular, when a
single argument is substituted for the first placeholder of a template
whose preceding text has no opening brace, the argument lands between
the surrounding text unchanged even when the argument itself contains
placeholder tokens (re-matching can only be done by a later step
consuming a different argument, as the counterexample shows). -/
theorem C3_no_rescan (pre post : List Char) (a : String)
    (h1 : obrace ∉ pre) (h2 : dollar ∉ a.toList) :
    Node.formatCommand (String.mk (pre ++ obrace :: '0' :: cbrace :: post)) [a] =
      String.mk (pre ++ a.toList ++ post) := by
  have hpre := scan_of_no_obrace h1
  have hname : (['0'] : List Char) ≠ [] := by decide
  have hfree : cbrace ∉ (['0'] : List Char) := by decide
  have hzero : ('0' : Char) ≠ cbrace := by decide
  unfold Node.formatCommand
  have htc : (String.mk (pre ++ obrace :: '0' :: cbrace :: post)).toList =
      pre ++ obrace :: '0' :: cbrace :: post := rfl
  simp only [htc]
  rw [if_pos (by simp : obrace ∈ pre ++ obrace :: '0' :: cbrace :: post)]
  have hms : matchScan (pre ++ obrace :: '0' :: cbrace :: post) =
      (obrace :: ['0'] ++ [cbrace]) :: matchAux post none := by
    unfold matchScan
    rw [matchAux_append, hpre.1, hpre.2]
    simp [matchAux, hzero]
  rw [hms]
  have hzip : ((obrace :: ['0'] ++ [cbrace]) :: matchAux post none).zip
      ([a].map String.toList) = [((obrace :: ['0'] ++ [cbrace]), a.toList)] := by
    simp
  rw [hzip]
  have hsplit : pre ++ obrace :: '0' :: cbrace :: post =
      pre ++ ((obrace :: ['0'] ++ [cbrace]) ++ post) := by simp
  show String.mk (Node.substLoop (pre ++ obrace :: '0' :: cbrace :: post)
      [((obrace :: ['0'] ++ [cbrace]), a.toList)]) = _
  rw [Node.substLoop, Node.substLoop, hsplit,
    jsReplace_of_firstOccur (firstOccur_clean hpre.1 hname hfree post),
    expand_of_no_dollar h2]

/-- Witness for the amended C3: the single argument is itself a
placeholder token and still lands verbatim. -/
theorem C3_no_rescan_witness :
    (obrace ∉ ("git checkout ".toList) ∧ dollar ∉ (("{1}" : String).toList)) ∧
      Node.formatCommand
          (String.mk ("git checkout ".toList ++ obrace :: '0' :: cbrace :: [])) ["{1}"] =
        String.mk ("git checkout ".toList ++ ("{1}" : String).toList ++ []) :=
  ⟨by decide, C3_no_rescan ("git checkout ".toList) [] "{1}" (by decide) (by decide)⟩

end VibeCli

namespace VibeCli

/-- C9 counterexample: the two formatters are not extensionally equal.
On a template whose matched placeholder has an inner opening brace, the
Node formatter replaces the matched text itself while the shared
formatter strips every brace from the match and rebuilds a different
needle that does not occur, leaving the template unchanged. -/
theorem C9_counterexample :
    Node.formatCommand (String.mk [obrace, 'a', obrace, 'b', cbrace]) ["Z"] = "Z" ∧
      Shared.formatCommand (String.mk [obrace, 'a', obrace, 'b', cbrace]) ["Z"] =
        String.mk [obrace, 'a', obrace, 'b', cbrace] ∧
      Shared.formatCommand (String.mk [obrace, 'a', obrace, 'b', cbrace]) ["Z"] ≠
        Node.formatCommand (String.mk [obrace, 'a', obrace, 'b', cbrace]) ["Z"] := by
  refine ⟨?_, ?_, ?_⟩ <;> decide

/-- C9 (amended): the two formatters agree on every template whose
matched placeholders survive the shared formatter's rebuild — that is,
whenever no matched placeholder's interior contains an opening brace,
stripping the braces and re-wrapping reproduces the matched text and
the two replacement loops coincide. -/
theorem C9_formatters_agree (template : String) (args : List String)
    (h : ∀ p ∈ matchScan template.toList,
      obrace :: Shared.stripBraces p ++ [cbrace] = p) :
    Shared.formatCommand template args = Node.formatCommand template args := by
  unfold Shared.formatCommand Node.formatCommand
  by_cases hmem : obrace ∈ template.toList
  · simp only [if_pos hmem]
    congr 1
    have hloop : ∀ (pairs : List (List Char × List Char)) (r : List Char),
        (∀ pr ∈ pairs, pr.1 ∈ matchScan template.toList) →
        Shared.substLoop r pairs = Node.substLoop r pairs := by
      intro pairs
      induction pairs with
      | nil => intro r _; rfl
      | cons pr rest ih =>
        intro r hall
        match pr with
        | (p, a) =>
          have hp := h p (hall (p, a) (List.mem_cons_self _ _))
          simp only [Shared.substLoop, Node.substLoop]
          rw [hp]
          exact ih _ (fun x hx => hall x (List.mem_cons_of_mem _ hx))
    apply hloop
    intro pr hpr
    match pr with
    | (p, a) => exact (List.of_mem_zip hpr).1
  · simp only [if_neg hmem]

/-- Witness for the amended C9 on an ordinary template. -/
theorem C9_formatters_agree_witness :
    (∀ p ∈ matchScan (("git {0} {1}" : String).toList),
        obrace :: Shared.stripBraces p ++ [cbrace] = p) ∧
      Shared.formatCommand "git {0} {1}" ["a", "b"] =
        Node.formatCommand "git {0} {1}" ["a", "b"] :=
  ⟨by decide, C9_formatters_agree "git {0} {1}" ["a", "b"] (by decide)⟩

end VibeCli

namespace VibeCli

/-- C5: the loader returns the empty table on a read failure, a parse
failure, or a null parse, and for every argv that reaches the normal
CLI path (not the `install-alias`/`uninstall` dispatch, which runs
before loading), `main` with an empty loaded table prints an error and
exits non-zero (`fatalEmptyTable`) before any help rendering, lookup or
execution. -/
theorem C5_empty_table_fatal (msg : String) (cliArgs : List String)
    (h1 : cliArgs.headD "" ≠ "install-alias") (h2 : cliArgs.headD "" ≠ "uninstall") :
    loadCommands (.readFailure msg) = [] ∧
      loadCommands (.parseFailure msg) = [] ∧
      loadCommands (.parsed none) = [] ∧
      mainResolve cliArgs [] = .fatalEmptyTable := by
  refine ⟨rfl, rfl, rfl, ?_⟩
  match cliArgs with
  | [] => rfl
  | a0 :: rest =>
    simp only [List.headD_cons] at h1 h2
    simp [mainResolve, h1, h2]

/-- Witness for C5 at a concrete argv. -/
theorem C5_empty_table_fatal_witness :
    ((["git", "status"] : List String).headD "" ≠ "install-alias" ∧
        (["git", "status"] : List String).headD "" ≠ "uninstall") ∧
      (loadCommands (.readFailure "File not found") = [] ∧
        loadCommands (.parseFailure "bad yaml") = [] ∧
        loadCommands (.parsed none) = [] ∧
        mainResolve ["git", "status"] [] = .fatalEmptyTable) := by
  refine ⟨by decide, ?_, ?_, ?_, ?_⟩
  all_goals
    have h := C5_empty_table_fatal "File not found" ["git", "status"] (by decide) (by decide)
  · exact h.1
  · exact (C5_empty_table_fatal "bad yaml" ["git", "status"] (by decide) (by decide)).2.1
  · exact h.2.2.1
  · exact h.2.2.2

/-- C6 counterexample: a descriptor with neither template nor handler
is not rejected at load time — the loader returns the table containing
it unchanged — and invoking that command is exactly when the
invalid-configuration error first appears (`main` prints the error and
exits non-zero at execution time). -/
theorem C6_counterexample :
    loadCommands (.parsed (some [("git", [("broken", ⟨none, some "no action", none, none⟩)])])) =
        [("git", [("broken", ⟨none, some "no action", none, none⟩)])] ∧
      mainResolve ["git", "broken"]
          [("git", [("broken", ⟨none, some "no action", none, none⟩)])] = .invalidConfig := by
  refine ⟨rfl, ?_⟩
  decide

/-- C6 (amended): load-time validation does not exist — `loadCommands`
returns any parsed table unchanged — and a descriptor with neither a
truthy template nor a truthy handler produces the invalid-configuration
error only at execution time, when that command is invoked. -/
theorem C6_invalid_at_execution (commands : AllCommands) (tool cmd : String)
    (tc : ToolCommands) (cfg : CommandConfig)
    (hta : commands.lookup tool = some tc) (hca : tc.lookup cmd = some cfg)
    (hh : isTruthy cfg.handler = false) (hc : isTruthy cfg.command = false)
    (hne : commands ≠ [])
    (ht1 : tool ≠ "install-alias") (ht2 : tool ≠ "uninstall") (ht3 : tool ≠ "help")
    (ht4 : tool ≠ "--help") (ht5 : tool ≠ "--version") (ht6 : tool ≠ "-v")
    (hcmd : cmd ≠ "help") :
    loadCommands (.parsed (some commands)) = commands ∧
      mainResolve [tool, cmd] commands = .invalidConfig := by
  refine ⟨rfl, ?_⟩
  have hemp : commands.isEmpty = false := by
    cases commands with
    | nil => exact absurd rfl hne
    | cons _ _ => rfl
  simp [mainResolve, ht1, ht2, ht3, ht4, ht5, ht6, hemp, hta, hcmd, hca, hh, hc]

/-- Witness for the amended C6. -/
theorem C6_invalid_at_execution_witness :
    (([("git", [("broken", (⟨none, some "no action", none, none⟩ : CommandConfig))])] :
          AllCommands).lookup "git" =
        some [("broken", ⟨none, some "no action", none, none⟩)] ∧
      ([("broken", (⟨none, some "no action", none, none⟩ : CommandConfig))] :
          ToolCommands).lookup "broken" = some ⟨none, some "no action", none, none⟩) ∧
      (loadCommands (.parsed (some [("git", [("broken", ⟨none, some "no action", none, none⟩)])])) =
          [("git", [("broken", ⟨none, some "no action", none, none⟩)])] ∧
        mainResolve ["git", "broken"]
            [("git", [("broken", ⟨none, some "no action", none, none⟩)])] = .invalidConfig) :=
  ⟨by decide,
    C6_invalid_at_execution
      [("git", [("broken", ⟨none, some "no action", none, none⟩)])] "git" "broken"
      [("broken", ⟨none, some "no action", none, none⟩)]
      ⟨none, some "no action", none, none⟩ (by decide) (by decide) (by decide)
      (by decide) (by decide) (by decide) (by decide) (by decide) (by decide)
      (by decide) (by decide) (by decide)⟩

/-- C7 counterexample: the descriptor for git status carries the alias
st, yet resolving the tokens git st yields the unknown-command error —
the resolver never consults the alias set. -/
theorem C7_counterexample :
    ("st" ∈ ((⟨some "git status", some "Show working tree status", none,
          some ["st"]⟩ : CommandConfig)).aliases.getD []) ∧
      mainResolve ["git", "st"]
          [("git", [("status",
            ⟨some "git status", some "Show working tree status", none, some ["st"]⟩)])] =
        .unknownCommand "git"
          [("status", ⟨some "git status", some "Show working tree status", none, some ["st"]⟩)] := by
  refine ⟨?_, ?_⟩ <;> decide

/-- C7 (amended): command-name resolution checks only the primary keys
of the tool's table; the alias set is parsed into the descriptor but
never consulted, so a second token that is only an alias of some
descriptor resolves to the unknown-command error. -/
theorem C7_alias_ignored (commands : AllCommands) (tool a1 : String)
    (tc : ToolCommands) (rest2 : List String)
    (hta : commands.lookup tool = some tc) (hnc : tc.lookup a1 = none)
    (_halias : ∃ c cfg, (c, cfg) ∈ tc ∧ a1 ∈ cfg.aliases.getD [])
    (hne : commands ≠ [])
    (ht1 : tool ≠ "install-alias") (ht2 : tool ≠ "uninstall") (ht3 : tool ≠ "help")
    (ht4 : tool ≠ "--help") (ht5 : tool ≠ "--version") (ht6 : tool ≠ "-v")
    (ha1 : a1 ≠ "help") :
    mainResolve (tool :: a1 :: rest2) commands = .unknownCommand tool tc := by
  have hemp : commands.isEmpty = false := by
    cases commands with
    | nil => exact absurd rfl hne
    | cons _ _ => rfl
  simp [mainResolve, ht1, ht2, ht3, ht4, ht5, ht6, hemp, hta, ha1, hnc]

/-- Witness for the amended C7: the alias-carrying table of the
counterexample input. -/
theorem C7_alias_ignored_witness :
    (([("git", [("status", (⟨some "git status", some "Show working tree status", none,
            some ["st"]⟩ : CommandConfig))])] : AllCommands).lookup "git" =
        some [("status", ⟨some "git status", some "Show working tree status", none, some ["st"]⟩)] ∧
      (∃ c cfg, (c, cfg) ∈ ([("status", (⟨some "git status", some "Show working tree status", none,
            some ["st"]⟩ : CommandConfig))] : ToolCommands) ∧ "st" ∈ cfg.aliases.getD [])) ∧
      mainResolve ["git", "st"]
          [("git", [("status",
            ⟨some "git status", some "Show working tree status", none, some ["st"]⟩)])] =
        .unknownCommand "git"
          [("status", ⟨some "git status", some "Show working tree status", none, some ["st"]⟩)] :=
  ⟨⟨by decide, ⟨"status", ⟨some "git status", some "Show working tree status", none, some ["st"]⟩,
      by decide, by decide⟩⟩,
    C7_alias_ignored
      [("git", [("status",
        ⟨some "git status", some "Show working tree status", none, some ["st"]⟩)])]
      "git" "st"
      [("status", ⟨some "git status", some "Show working tree status", none, some ["st"]⟩)]
      [] (by decide) (by decide)
      ⟨"status", ⟨some "git status", some "Show working tree status", none, some ["st"]⟩,
        by decide, by decide⟩
      (by decide) (by decide) (by decide) (by decide) (by decide) (by decide) (by decide)
      (by decide)⟩

/-- C8 counterexample: with a loaded table that has no tool named -h,
invoking the CLI with first token -h does not yield general help — the
entry point's help check tests only help and --help, so -h falls
through to the unknown-tool error path (exit code 1). -/
theorem C8_counterexample :
    mainResolve ["-h"] [("git", [("status", ⟨some "git status", some "s", none, none⟩)])] =
        .unknownTool [("git", [("status", ⟨some "git status", some "s", none, none⟩)])] ∧
      mainResolve ["-h"] [("git", [("status", ⟨some "git status", some "s", none, none⟩)])] ≠
        .generalHelp [("git", [("status", ⟨some "git status", some "s", none, none⟩)])] := by
  refine ⟨?_, ?_⟩ <;> decide

/-- C8 (amended): with a nonempty table, an empty argv or a first token
help or --help yields general help in the entry point, while -h falls
through to the unknown-tool error there (the shared `parseCommandArgs`
does accept -h as a help request); and for a known, non-special tool
name, a one-token argv and a second token help yield the identical
tool-help result. -/
theorem C8_help_resolution (commands : AllCommands) (tool : String) (tc : ToolCommands)
    (hne : commands ≠ [])
    (hhm : commands.lookup "-h" = none)
    (hta : commands.lookup tool = some tc)
    (ht1 : tool ≠ "install-alias") (ht2 : tool ≠ "uninstall") (ht3 : tool ≠ "help")
    (ht4 : tool ≠ "--help") (ht5 : tool ≠ "--version") (ht6 : tool ≠ "-v") :
    mainResolve [] commands = .generalHelp commands ∧
      mainResolve ["help"] commands = .generalHelp commands ∧
      mainResolve ["--help"] commands = .generalHelp commands ∧
      mainResolve ["-h"] commands = .unknownTool commands ∧
      Shared.parseCommandArgs ["-h"] commands =
        { Shared.emptyInfo with showHelp := some true } ∧
      mainResolve [tool] commands = .toolHelp tool tc ∧
      mainResolve [tool, "help"] commands = .toolHelp tool tc := by
  have hemp : commands.isEmpty = false := by
    cases commands with
    | nil => exact absurd rfl hne
    | cons _ _ => rfl
  refine ⟨?_, ?_, ?_, ?_, ?_, ?_, ?_⟩
  · simp [mainResolve, hemp]
  · simp [mainResolve, hemp]
  · simp [mainResolve, hemp]
  · simp [mainResolve, hemp, hhm]
  · simp [Shared.parseCommandArgs]
  · simp [mainResolve, ht1, ht2, ht3, ht4, ht5, ht6, hemp, hta]
  · simp [mainResolve, ht1, ht2, ht3, ht4, ht5, ht6, hemp, hta]

/-- Witness for the amended C8. -/
theorem C8_help_resolution_witness :
    (([("git", [("status", (⟨some "git status", some "s", none, none⟩ : CommandConfig))])] :
          AllCommands) ≠ [] ∧
      ([("git", [("status", (⟨some "git status", some "s", none, none⟩ : CommandConfig))])] :
          AllCommands).lookup "-h" = none ∧
      ([("git", [("status", (⟨some "git status", some "s", none, none⟩ : CommandConfig))])] :
          AllCommands).lookup "git" =
        some [("status", ⟨some "git status", some "s", none, none⟩)]) ∧
      (mainResolve ["git"] [("git", [("status", ⟨some "git status", some "s", none, none⟩)])] =
          .toolHelp "git" [("status", ⟨some "git status", some "s", none, none⟩)] ∧
        mainResolve ["git", "help"]
            [("git", [("status", ⟨some "git status", some "s", none, none⟩)])] =
          .toolHelp "git" [("status", ⟨some "git status", some "s", none, none⟩)] ∧
        mainResolve ["-h"] [("git", [("status", ⟨some "git status", some "s", none, none⟩)])] =
          .unknownTool [("git", [("status", ⟨some "git status", some "s", none, none⟩)])]) := by
  have h := C8_help_resolution
    [("git", [("status", ⟨some "git status", some "s", none, none⟩)])] "git"
    [("status", ⟨some "git status", some "s", none, none⟩)]
    (by decide) (by decide) (by decide) (by decide) (by decide) (by decide)
    (by decide) (by decide) (by decide)
  exact ⟨⟨by decide, by decide, by decide⟩, h.2.2.2.2.2.1, h.2.2.2.2.2.2, h.2.2.2.1⟩

end VibeCli
